import Mathlib

/-!
Verification development for the timpris2influx scraper (src/main.go).

The development shallowly embeds the single `run` entry point of the
program: base64 decoding of the two chart attributes (`data-labels`,
`data-datasets`), JSON decoding of the label array and the dataset
(`Timpris`) array, the per-hour point construction, and the two sink
writes (InfluxDB batch write, optional MariaDB inserts).  Go strings are
modelled as `List Char`, byte slices as `List Nat` (each below 256),
float64 price literals as exact decimal literals (`Dec`), and absolute
instants as unix seconds (`Int`).
-/

namespace T2I

/-- Big-endian base-10 value of a digit list, as computed by a
left-to-right fold (the way a parser accumulates digits). -/
def valOf (l : List Nat) : Nat := l.foldl (fun a d => 10 * a + d) 0

/-- Little-endian decimal digits of `n`, with explicit fuel so that the
definition is structural and kernel-reducible. -/
def natDigitsLE : Nat → Nat → List Nat
  | 0, _ => []
  | fuel + 1, n => if n = 0 then [] else n % 10 :: natDigitsLE fuel (n / 10)

/-- Big-endian decimal digits of `n`; `0` prints as the single digit 0. -/
def natDigitsBE (n : Nat) : List Nat :=
  if n = 0 then [0] else (natDigitsLE n n).reverse

/-- Decimal ASCII bytes of `n` (the bytes `json.Marshal`/`Sprintf` would
produce for a natural number). -/
def printNat (n : Nat) : List Nat := (natDigitsBE n).map (fun d => 48 + d)

/-- ASCII digit character. -/
def digitChar (d : Nat) : Char := Char.ofNat (48 + d)

/-- Decimal string of `n`, as produced by `fmt.Sprintf` with a `d` verb. -/
def natToChars (n : Nat) : List Char := (natDigitsBE n).map digitChar

theorem valOf_nil : valOf [] = 0 := rfl

theorem valOf_append (l : List Nat) (d : Nat) :
    valOf (l ++ [d]) = 10 * valOf l + d := by
  unfold valOf
  rw [List.foldl_append]
  rfl

theorem natDigitsLE_zero (fuel : Nat) : natDigitsLE fuel 0 = [] := by
  cases fuel <;> simp [natDigitsLE]

theorem natDigitsLE_spec :
    ∀ fuel n, 0 < n → n ≤ fuel →
      valOf (natDigitsLE fuel n).reverse = n ∧
      (∀ d ∈ natDigitsLE fuel n, d < 10) ∧ natDigitsLE fuel n ≠ [] := by
  intro fuel
  induction fuel with
  | zero => intro n h1 h2; omega
  | succ fuel ih =>
    intro n h1 h2
    simp only [natDigitsLE]
    rw [if_neg (by omega)]
    by_cases hq : n / 10 = 0
    · have hn : n % 10 = n := by omega
      rw [hq, natDigitsLE_zero]
      refine ⟨?_, ?_, ?_⟩
      · simp [valOf, hn]
      · intro d hd
        simp only [List.mem_cons, List.not_mem_nil, or_false] at hd
        omega
      · simp
    · have hq1 : 0 < n / 10 := Nat.pos_of_ne_zero hq
      have hq2 : n / 10 ≤ fuel := by omega
      obtain ⟨hv, hd, hne⟩ := ih (n / 10) hq1 hq2
      refine ⟨?_, ?_, ?_⟩
      · rw [List.reverse_cons, valOf_append, hv]; omega
      · intro d hd2
        rcases List.mem_cons.mp hd2 with h | h
        · omega
        · exact hd d h
      · simp

theorem natDigitsBE_valOf (n : Nat) : valOf (natDigitsBE n) = n := by
  unfold natDigitsBE
  by_cases h : n = 0
  · simp [h, valOf]
  · rw [if_neg h]
    exact (natDigitsLE_spec n n (by omega) le_rfl).1

theorem natDigitsBE_lt (n : Nat) : ∀ d ∈ natDigitsBE n, d < 10 := by
  unfold natDigitsBE
  by_cases h : n = 0
  · simp [h]
  · rw [if_neg h]
    intro d hd
    exact (natDigitsLE_spec n n (by omega) le_rfl).2.1 d (List.mem_reverse.mp hd)

theorem natDigitsBE_ne_nil (n : Nat) : natDigitsBE n ≠ [] := by
  unfold natDigitsBE
  by_cases h : n = 0
  · simp [h]
  · rw [if_neg h]
    simp only [ne_eq, List.reverse_eq_nil_iff]
    exact (natDigitsLE_spec n n (by omega) le_rfl).2.2

theorem printNat_ne_nil (n : Nat) : printNat n ≠ [] := by
  unfold printNat
  simp only [ne_eq, List.map_eq_nil_iff]
  exact natDigitsBE_ne_nil n

/-- Byte class test used by the hand-rolled JSON number scanner: ASCII
decimal digit. -/
def isDigitB (b : Nat) : Bool := decide (48 ≤ b ∧ b ≤ 57)

/-- Splits the maximal leading run of ASCII digit bytes from the rest. -/
def parseDigits : List Nat → List Nat × List Nat
  | [] => ([], [])
  | b :: r =>
    if isDigitB b then
      let p := parseDigits r
      (b :: p.1, p.2)
    else ([], b :: r)

/-- `rest` does not start with an ASCII digit byte. -/
def headNotDigit (l : List Nat) : Prop :=
  ∀ b, l.head? = some b → isDigitB b = false

theorem headNotDigit_nil : headNotDigit [] := by
  intro b hb
  simp at hb

theorem headNotDigit_cons {b : Nat} (l : List Nat) (h : isDigitB b = false) :
    headNotDigit (b :: l) := by
  intro x hx
  simp only [List.head?_cons, Option.some.injEq] at hx
  exact hx ▸ h

theorem parseDigits_append (xs ys : List Nat)
    (hx : ∀ a ∈ xs, isDigitB a = true) (hy : headNotDigit ys) :
    parseDigits (xs ++ ys) = (xs, ys) := by
  induction xs with
  | nil =>
    simp only [List.nil_append]
    cases ys with
    | nil => rfl
    | cons b r =>
      have hb : isDigitB b = false := hy b rfl
      simp [parseDigits, hb]
  | cons a t ih =>
    have ha : isDigitB a = true := hx a (List.mem_cons_self a t)
    have ht : ∀ x ∈ t, isDigitB x = true := fun x hxt => hx x (List.mem_cons_of_mem a hxt)
    have step : parseDigits ((a :: t) ++ ys) =
        (a :: (parseDigits (t ++ ys)).1, (parseDigits (t ++ ys)).2) := by
      simp [parseDigits, ha]
    rw [step, ih ht]

theorem printNat_digits (n : Nat) : ∀ a ∈ printNat n, isDigitB a = true := by
  intro a ha
  unfold printNat at ha
  obtain ⟨d, hd, rfl⟩ := List.mem_map.mp ha
  have := natDigitsBE_lt n d hd
  simp only [isDigitB, decide_eq_true_eq]
  omega

theorem printNat_undigit (n : Nat) :
    (printNat n).map (fun b => b - 48) = natDigitsBE n := by
  unfold printNat
  rw [List.map_map]
  have h1 : ∀ l : List Nat, List.map ((fun b => b - 48) ∘ fun d => 48 + d) l = l := by
    intro l
    induction l with
    | nil => rfl
    | cons x t ih => simp [ih]
  exact h1 _

theorem parseDigits_printNat (n : Nat) (rest : List Nat) (hy : headNotDigit rest) :
    parseDigits (printNat n ++ rest) = (printNat n, rest) :=
  parseDigits_append (printNat n) rest (printNat_digits n) hy

theorem valOf_printNat (n : Nat) :
    valOf ((printNat n).map (fun b => b - 48)) = n := by
  rw [printNat_undigit, natDigitsBE_valOf]

/-- The standard base64 alphabet used by Go `base64.StdEncoding`. -/
def b64Alphabet : List Char :=
  ['A', 'B', 'C', 'D', 'E', 'F', 'G', 'H', 'I', 'J', 'K', 'L', 'M',
   'N', 'O', 'P', 'Q', 'R', 'S', 'T', 'U', 'V', 'W', 'X', 'Y', 'Z',
   'a', 'b', 'c', 'd', 'e', 'f', 'g', 'h', 'i', 'j', 'k', 'l', 'm',
   'n', 'o', 'p', 'q', 'r', 's', 't', 'u', 'v', 'w', 'x', 'y', 'z',
   '0', '1', '2', '3', '4', '5', '6', '7', '8', '9', '+', '/']

/-- Character for a six-bit group. -/
def b64Char (n : Nat) : Char := b64Alphabet.getD n 'A'

/-- Six-bit value of an alphabet character; `none` for characters outside
the alphabet (`base64.CorruptInputError` in Go). -/
def b64Index (c : Char) : Option Nat := b64Alphabet.indexOf? c

/-- Go `base64.StdEncoding.EncodeToString`: three input bytes become four
alphabet characters; one or two trailing bytes are padded with `=`. -/
def b64encode : List Nat → List Char
  | [] => []
  | [a] => [b64Char (a / 4), b64Char (a % 4 * 16), '=', '=']
  | [a, b] => [b64Char (a / 4), b64Char (a % 4 * 16 + b / 16), b64Char (b % 16 * 4), '=']
  | a :: b :: c :: rest =>
    b64Char (a / 4) :: b64Char (a % 4 * 16 + b / 16) ::
      b64Char (b % 16 * 4 + c / 64) :: b64Char (c % 64) :: b64encode rest

/-- Go `base64.StdEncoding.DecodeString`: input must be a sequence of
four-character groups, with `=` padding allowed only in the final group. -/
def b64decode : List Char → Option (List Nat)
  | [] => some []
  | c1 :: c2 :: c3 :: c4 :: rest =>
    (b64Index c1).bind fun s1 =>
    (b64Index c2).bind fun s2 =>
    if c3 = '=' then
      if c4 = '=' ∧ rest = [] then some [s1 * 4 + s2 / 16] else none
    else
      (b64Index c3).bind fun s3 =>
      if c4 = '=' then
        if rest = [] then some [s1 * 4 + s2 / 16, s2 % 16 * 16 + s3 / 4] else none
      else
        (b64Index c4).bind fun s4 =>
        (b64decode rest).map fun bs =>
          (s1 * 4 + s2 / 16) :: (s2 % 16 * 16 + s3 / 4) :: (s3 % 4 * 64 + s4) :: bs
  | _ => none

theorem b64Index_b64Char_fin : ∀ s : Fin 64, b64Index (b64Char s.val) = some s.val := by
  decide

theorem b64Char_ne_pad_fin : ∀ s : Fin 64, b64Char s.val ≠ '=' := by
  decide

theorem b64Index_b64Char {s : Nat} (h : s < 64) : b64Index (b64Char s) = some s :=
  b64Index_b64Char_fin ⟨s, h⟩

theorem b64Char_ne_pad {s : Nat} (h : s < 64) : b64Char s ≠ '=' :=
  b64Char_ne_pad_fin ⟨s, h⟩

theorem b64_roundtrip_aux :
    ∀ (n : Nat) (l : List Nat), l.length ≤ n → (∀ b ∈ l, b < 256) →
      b64decode (b64encode l) = some l := by
  intro n
  induction n with
  | zero =>
    intro l hl _
    have : l = [] := List.eq_nil_of_length_eq_zero (by omega)
    subst this
    rfl
  | succ n ih =>
    intro l hl hb
    cases l with
    | nil => rfl
    | cons a l1 =>
      have ha : a < 256 := hb a (List.mem_cons_self a l1)
      cases l1 with
      | nil =>
        have h1 : a / 4 < 64 := by omega
        have h2 : a % 4 * 16 < 64 := by omega
        simp only [b64encode, b64decode, b64Index_b64Char h1, b64Index_b64Char h2,
          Option.some_bind]
        simp
        omega
      | cons b l2 =>
        have hbb : b < 256 := hb b (List.mem_cons_of_mem a (List.mem_cons_self b l2))
        cases l2 with
        | nil =>
          have h1 : a / 4 < 64 := by omega
          have h2 : a % 4 * 16 + b / 16 < 64 := by omega
          have h3 : b % 16 * 4 < 64 := by omega
          have hne3 : b64Char (b % 16 * 4) ≠ '=' := b64Char_ne_pad h3
          simp only [b64encode, b64decode, b64Index_b64Char h1, b64Index_b64Char h2,
            Option.some_bind]
          simp [hne3, b64Index_b64Char h3]
          omega
        | cons c rest =>
          have hc : c < 256 := by
            apply hb c
            simp
          have h1 : a / 4 < 64 := by omega
          have h2 : a % 4 * 16 + b / 16 < 64 := by omega
          have h3 : b % 16 * 4 + c / 64 < 64 := by omega
          have h4 : c % 64 < 64 := by omega
          have hne3 : b64Char (b % 16 * 4 + c / 64) ≠ '=' := b64Char_ne_pad h3
          have hne4 : b64Char (c % 64) ≠ '=' := b64Char_ne_pad h4
          have hrest : b64decode (b64encode rest) = some rest := by
            apply ih rest
            · simp only [List.length_cons] at hl
              omega
            · intro x hx
              apply hb x
              simp [hx]
          simp only [b64encode, b64decode, b64Index_b64Char h1, b64Index_b64Char h2,
            Option.some_bind]
          simp [hne3, hne4, b64Index_b64Char h3, b64Index_b64Char h4, hrest]
          omega

/-- Round trip of the Go standard base64 codec on genuine byte lists. -/
theorem b64_roundtrip (l : List Nat) (hb : ∀ b ∈ l, b < 256) :
    b64decode (b64encode l) = some l :=
  b64_roundtrip_aux l.length l le_rfl hb

/-- An exact decimal literal, the embedding of a float64 value as it
appears textually in the chart JSON: sign, integer part, fraction
digits.  Well-formed values (`Dec.WF`) have fraction digits below 10. -/
structure Dec where
  neg : Bool
  ip : Nat
  fp : List Nat
deriving DecidableEq, Repr

/-- All fraction digits of the literal are decimal digits. -/
def Dec.WF (d : Dec) : Prop := ∀ x ∈ d.fp, x < 10

instance (d : Dec) : Decidable d.WF := by
  unfold Dec.WF
  infer_instance

/-- JSON text of the fraction part of a decimal literal: nothing for an
integer, otherwise a dot followed by the fraction digits. -/
def fracPart (fp : List Nat) : List Nat :=
  if fp = [] then [] else 46 :: fp.map (fun x => 48 + x)

/-- JSON text of one decimal literal. -/
def printDec (d : Dec) : List Nat :=
  (if d.neg then [45] else []) ++ printNat d.ip ++ fracPart d.fp

/-- JSON text of the items of a number array (no surrounding brackets). -/
def printItems : List Dec → List Nat
  | [] => []
  | [d] => printDec d
  | d :: rest => printDec d ++ 44 :: printItems rest

/-- JSON text of a number array, e.g. `[1.23,0.98]`. -/
def jsonPrintNums (xs : List Dec) : List Nat := 91 :: printItems xs ++ [93]

/-- Scans an unsigned decimal integer (maximal digit run); fails when no
digit is present. -/
def parseUInt (bs : List Nat) : Option (Nat × List Nat) :=
  let p := parseDigits bs
  if p.1 = [] then none else some (valOf (p.1.map (fun b => b - 48)), p.2)

/-- Scans an unsigned JSON number: integer digits and an optional
fraction part introduced by a dot. -/
def parseNumBody (bs : List Nat) : Option (Dec × List Nat) :=
  match parseUInt bs with
  | none => none
  | some (ip, r) =>
    match r with
    | [] => some (⟨false, ip, []⟩, [])
    | b :: r2 =>
      if b = 46 then
        let p := parseDigits r2
        if p.1 = [] then none
        else some (⟨false, ip, p.1.map (fun x => x - 48)⟩, p.2)
      else some (⟨false, ip, []⟩, b :: r2)

/-- Scans one JSON number with optional leading minus sign. -/
def parseNum (bs : List Nat) : Option (Dec × List Nat) :=
  match bs with
  | [] => none
  | b :: r =>
    if b = 45 then
      (parseNumBody r).bind fun p => some (⟨true, p.1.ip, p.1.fp⟩, p.2)
    else parseNumBody (b :: r)

/-- Scans the items of a nonempty JSON number array up to and including
the closing bracket; fuel bounds the number of items. -/
def parseNumList : Nat → List Nat → Option (List Dec × List Nat)
  | 0, _ => none
  | fuel + 1, bs =>
    (parseNum bs).bind fun dr =>
      match dr.2 with
      | [] => none
      | b :: r2 =>
        if b = 44 then
          (parseNumList fuel r2).bind fun p => some (dr.1 :: p.1, p.2)
        else if b = 93 then some ([dr.1], r2)
        else none

/-- `json.Unmarshal` of a whole payload into a float64 array (fragment:
number arrays without spaces, exponents or null). -/
def jsonParseNums (bs : List Nat) : Option (List Dec) :=
  match bs with
  | [] => none
  | b :: r =>
    if b = 91 then
      match r with
      | [] => none
      | b2 :: r2 =>
        if b2 = 93 then (if r2 = [] then some [] else none)
        else
          match parseNumList r.length r with
          | some (ds, rest) => if rest = [] then some ds else none
          | none => none
    else none

theorem map_sub48_add48 (l : List Nat) :
    (l.map (fun x => 48 + x)).map (fun b => b - 48) = l := by
  induction l with
  | nil => rfl
  | cons x t ih => simp [ih]

theorem printNat_head (n : Nat) :
    ∃ b t, printNat n = b :: t ∧ 48 ≤ b ∧ b ≤ 57 := by
  cases h : natDigitsBE n with
  | nil => exact absurd h (natDigitsBE_ne_nil n)
  | cons d t =>
    refine ⟨48 + d, t.map (fun x => 48 + x), ?_, by omega, ?_⟩
    · unfold printNat
      rw [h]
      rfl
    · have : d < 10 := natDigitsBE_lt n d (h ▸ List.mem_cons_self d t)
      omega

theorem printDec_ne_nil (d : Dec) : printDec d ≠ [] := by
  unfold printDec
  obtain ⟨b, t, hbt, _, _⟩ := printNat_head d.ip
  cases hn : d.neg <;> simp [hn, hbt]

theorem printDec_head (d : Dec) :
    ∃ b t, printDec d = b :: t ∧ (b = 45 ∨ (48 ≤ b ∧ b ≤ 57)) := by
  unfold printDec
  obtain ⟨b, t, hbt, hb1, hb2⟩ := printNat_head d.ip
  cases hn : d.neg
  · refine ⟨b, t ++ fracPart d.fp, ?_, ?_⟩
    · simp [hbt]
    · right
      exact ⟨hb1, hb2⟩
  · exact ⟨45, printNat d.ip ++ fracPart d.fp, by simp, Or.inl rfl⟩

theorem printItems_head (xs : List Dec) (h : xs ≠ []) :
    ∃ b t, printItems xs = b :: t ∧ (b = 45 ∨ (48 ≤ b ∧ b ≤ 57)) := by
  match xs with
  | [] => exact absurd rfl h
  | [d] =>
    obtain ⟨b, t, hbt, hb⟩ := printDec_head d
    exact ⟨b, t, by simpa [printItems] using hbt, hb⟩
  | d :: x2 :: t2 =>
    obtain ⟨b, t, hbt, hb⟩ := printDec_head d
    refine ⟨b, t ++ 44 :: printItems (x2 :: t2), ?_, hb⟩
    simp [printItems, hbt]

theorem printItems_length (xs : List Dec) (h : xs ≠ []) :
    xs.length ≤ (printItems xs).length := by
  match xs with
  | [] => exact absurd rfl h
  | [d] =>
    have := printDec_ne_nil d
    have : (printDec d).length ≠ 0 := by
      simpa [List.length_eq_zero] using this
    simp only [printItems, List.length_singleton]
    omega
  | d :: x2 :: t2 =>
    have ih := printItems_length (x2 :: t2) (by simp)
    have hd := printDec_ne_nil d
    have hd0 : (printDec d).length ≠ 0 := by
      simpa [List.length_eq_zero] using hd
    simp only [printItems, List.length_append, List.length_cons] at *
    omega

/-- The byte after a printed number inside an array: never a digit and
never a dot (it is a comma or a closing bracket). -/
def headOkNum (l : List Nat) : Prop :=
  ∀ b, l.head? = some b → isDigitB b = false ∧ b ≠ 46

theorem headOkNum_cons {b : Nat} (l : List Nat)
    (h1 : isDigitB b = false) (h2 : b ≠ 46) : headOkNum (b :: l) := by
  intro x hx
  simp only [List.head?_cons, Option.some.injEq] at hx
  subst hx
  exact ⟨h1, h2⟩

theorem headOkNum.notDigit {l : List Nat} (h : headOkNum l) : headNotDigit l :=
  fun b hb => (h b hb).1

theorem parseUInt_print (n : Nat) (ys : List Nat) (hy : headNotDigit ys) :
    parseUInt (printNat n ++ ys) = some (n, ys) := by
  unfold parseUInt
  rw [parseDigits_printNat n ys hy]
  simp only []
  rw [if_neg (printNat_ne_nil n), valOf_printNat]

theorem map_comp_sub48 (l : List Nat) :
    l.map ((fun x => x - 48) ∘ fun x => 48 + x) = l := by
  induction l with
  | nil => rfl
  | cons x t ih => simp [ih]

theorem fracPart_nil : fracPart [] = [] := rfl

theorem fracPart_ne {fp : List Nat} (h : fp ≠ []) :
    fracPart fp = 46 :: fp.map (fun x => 48 + x) := if_neg h

theorem parseNumBody_print (ip : Nat) (fp : List Nat) (rest : List Nat)
    (hfp : ∀ x ∈ fp, x < 10) (hr : headOkNum rest) :
    parseNumBody (printNat ip ++ (fracPart fp ++ rest)) =
      some (⟨false, ip, fp⟩, rest) := by
  by_cases hfpe : fp = []
  · subst hfpe
    rw [fracPart_nil, List.nil_append]
    unfold parseNumBody
    rw [parseUInt_print ip rest hr.notDigit]
    cases rest with
    | nil => simp
    | cons b r2 =>
      have hb := hr b rfl
      simp [hb.2]
  · rw [fracPart_ne hfpe]
    have hhead : headNotDigit (46 :: (fp.map (fun x => 48 + x) ++ rest)) :=
      headNotDigit_cons _ (by decide)
    have hdig : ∀ a ∈ fp.map (fun x => 48 + x), isDigitB a = true := by
      intro a ha
      obtain ⟨x, hx, rfl⟩ := List.mem_map.mp ha
      have := hfp x hx
      simp only [isDigitB, decide_eq_true_eq]
      omega
    have hmapne : fp.map (fun x => 48 + x) ≠ [] := by
      simpa [List.map_eq_nil_iff] using hfpe
    unfold parseNumBody
    rw [List.cons_append, parseUInt_print ip _ hhead]
    simp [parseDigits_append _ rest hdig hr.notDigit, hmapne, map_comp_sub48]

theorem parseNum_print (d : Dec) (rest : List Nat)
    (hWF : d.WF) (hr : headOkNum rest) :
    parseNum (printDec d ++ rest) = some (d, rest) := by
  obtain ⟨neg, ip, fp⟩ := d
  have hfp : ∀ x ∈ fp, x < 10 := hWF
  cases neg
  · obtain ⟨b, t, hbt, hb1, hb2⟩ := printNat_head ip
    have hshape : printDec ⟨false, ip, fp⟩ ++ rest =
        printNat ip ++ (fracPart fp ++ rest) := by
      unfold printDec
      simp
    rw [hshape, hbt, List.cons_append]
    unfold parseNum
    simp only []
    rw [if_neg (by omega : ¬ b = 45), ← List.cons_append, ← hbt,
      parseNumBody_print ip fp rest hfp hr]
  · have hshape : printDec ⟨true, ip, fp⟩ ++ rest =
        45 :: (printNat ip ++ (fracPart fp ++ rest)) := by
      unfold printDec
      simp
    rw [hshape]
    unfold parseNum
    simp [parseNumBody_print ip fp rest hfp hr]

theorem parseNumList_print :
    ∀ (xs : List Dec) (fuel : Nat) (r : List Nat), xs ≠ [] →
      (∀ d ∈ xs, d.WF) → xs.length ≤ fuel →
      parseNumList fuel (printItems xs ++ 93 :: r) = some (xs, r) := by
  intro xs
  induction xs with
  | nil => intro fuel r h; exact absurd rfl h
  | cons d t ih =>
    intro fuel r _ hWF hlen
    have hdWF : d.WF := hWF d (List.mem_cons_self d t)
    cases fuel with
    | zero => simp at hlen
    | succ fuel =>
      cases t with
      | nil =>
        have hshape : printItems [d] ++ 93 :: r = printDec d ++ 93 :: r := by
          simp [printItems]
        rw [hshape]
        unfold parseNumList
        rw [parseNum_print d (93 :: r) hdWF (headOkNum_cons _ (by decide) (by decide))]
        simp
      | cons x2 t2 =>
        have hshape : printItems (d :: x2 :: t2) ++ 93 :: r =
            printDec d ++ 44 :: (printItems (x2 :: t2) ++ 93 :: r) := by
          simp [printItems]
        rw [hshape]
        unfold parseNumList
        rw [parseNum_print d (44 :: (printItems (x2 :: t2) ++ 93 :: r)) hdWF
          (headOkNum_cons _ (by decide) (by decide))]
        have hrec : parseNumList fuel (printItems (x2 :: t2) ++ 93 :: r) =
            some (x2 :: t2, r) := by
          apply ih fuel r (by simp) (fun x hx => hWF x (List.mem_cons_of_mem d hx))
          simp only [List.length_cons] at hlen ⊢
          omega
        simp [hrec]

theorem jsonParseNums_91 (r : List Nat) :
    jsonParseNums (91 :: r) =
      (match r with
       | [] => none
       | b2 :: r2 =>
         if b2 = 93 then (if r2 = [] then some [] else none)
         else
           match parseNumList r.length r with
           | some (ds, rest) => if rest = [] then some ds else none
           | none => none) := by
  simp [jsonParseNums]

/-- Round trip of array-of-numbers JSON decoding against the serializer. -/
theorem jsonParseNums_print (xs : List Dec) (hWF : ∀ d ∈ xs, d.WF) :
    jsonParseNums (jsonPrintNums xs) = some xs := by
  cases xs with
  | nil => rfl
  | cons x t =>
    obtain ⟨b, tl, hbt, hb⟩ := printItems_head (x :: t) (by simp)
    have hlen : (x :: t).length ≤ (printItems (x :: t) ++ 93 :: []).length := by
      have h2 := printItems_length (x :: t) (by simp)
      simp only [List.length_cons] at h2 ⊢
      simp only [List.length_append, List.length_cons, List.length_nil]
      omega
    have hb93 : ¬ b = 93 := by omega
    have hshape : jsonPrintNums (x :: t) = 91 :: (printItems (x :: t) ++ 93 :: []) := by
      simp [jsonPrintNums]
    rw [hshape, jsonParseNums_91, hbt, List.cons_append]
    simp only []
    rw [if_neg hb93, ← List.cons_append, ← hbt,
      parseNumList_print (x :: t) _ [] (by simp) hWF hlen]
    simp

/-- Scans a signed JSON integer for `json.Unmarshal` into a Go `int`;
a following dot or exponent makes the enclosing parse fail, as Go
rejects fractional numbers for integer targets. -/
def parseIntRaw (bs : List Nat) : Option (Int × List Nat) :=
  match bs with
  | [] => none
  | b :: r =>
    if b = 45 then
      match parseUInt r with
      | none => none
      | some (n, r2) => some (-(n : Int), r2)
    else
      match parseUInt (b :: r) with
      | none => none
      | some (n, r2) => some ((n : Int), r2)

/-- Scans the items of a nonempty JSON integer array up to and including
the closing bracket. -/
def parseIntItems : Nat → List Nat → Option (List Int × List Nat)
  | 0, _ => none
  | fuel + 1, bs =>
    (parseIntRaw bs).bind fun dr =>
      match dr.2 with
      | [] => none
      | b :: r2 =>
        if b = 44 then
          (parseIntItems fuel r2).bind fun p => some (dr.1 :: p.1, p.2)
        else if b = 93 then some ([dr.1], r2)
        else none

/-- `json.Unmarshal` of the labels payload into `[]int` (fragment:
integer arrays without spaces). -/
def jsonParseInts (bs : List Nat) : Option (List Int) :=
  match bs with
  | [] => none
  | b :: r =>
    if b = 91 then
      match r with
      | [] => none
      | b2 :: r2 =>
        if b2 = 93 then (if r2 = [] then some [] else none)
        else
          match parseIntItems r.length r with
          | some (ds, rest) => if rest = [] then some ds else none
          | none => none
    else none

/-- The embedding of the Go struct `Timpris` from src/main.go: one chart
series with its style attributes. -/
structure Timpris where
  label : List Nat
  data : List Dec
  borderwidth : Int
  fill : Bool
  bordercolor : List Nat
  steppedline : Bool
deriving DecidableEq, Repr

/-- Zero value of `Timpris`, the starting point of `json.Unmarshal` into
a fresh struct. -/
def timprisZero : Timpris := ⟨[], [], 0, false, [], false⟩

/-- Scans a JSON string literal body after the opening quote (fragment:
no escape sequences). -/
def parseStrChars : List Nat → Option (List Nat × List Nat)
  | [] => none
  | b :: r =>
    if b = 34 then some ([], r)
    else if b = 92 then none
    else (parseStrChars r).map fun p => (b :: p.1, p.2)

/-- Scans a quoted JSON string literal. -/
def parseStringLit (bs : List Nat) : Option (List Nat × List Nat) :=
  match bs with
  | [] => none
  | b :: r => if b = 34 then parseStrChars r else none

/-- Scans a JSON boolean literal. -/
def parseBoolLit : List Nat → Option (Bool × List Nat)
  | 116 :: 114 :: 117 :: 101 :: r => some (true, r)
  | 102 :: 97 :: 108 :: 115 :: 101 :: r => some (false, r)
  | _ => none

/-- Scans a JSON array of numbers as a member value (the `data` field). -/
def parseNumArrayVal (bs : List Nat) : Option (List Dec × List Nat) :=
  match bs with
  | [] => none
  | b :: r =>
    if b = 91 then
      match r with
      | [] => none
      | b2 :: r2 =>
        if b2 = 93 then some ([], r2)
        else parseNumList r.length r
    else none

/-- Applies one `key: value` member to the accumulated `Timpris`,
mirroring how `json.Unmarshal` fills the matching struct field. -/
def parseMemberVal (key : List Nat) (acc : Timpris) (bs : List Nat) :
    Option (Timpris × List Nat) :=
  if key = [108, 97, 98, 101, 108] then
    (parseStringLit bs).map fun p => ({acc with label := p.1}, p.2)
  else if key = [100, 97, 116, 97] then
    (parseNumArrayVal bs).map fun p => ({acc with data := p.1}, p.2)
  else if key = [98, 111, 114, 100, 101, 114, 119, 105, 100, 116, 104] then
    (parseIntRaw bs).map fun p => ({acc with borderwidth := p.1}, p.2)
  else if key = [102, 105, 108, 108] then
    (parseBoolLit bs).map fun p => ({acc with fill := p.1}, p.2)
  else if key = [98, 111, 114, 100, 101, 114, 99, 111, 108, 111, 114] then
    (parseStringLit bs).map fun p => ({acc with bordercolor := p.1}, p.2)
  else if key = [115, 116, 101, 112, 112, 101, 100, 108, 105, 110, 101] then
    (parseBoolLit bs).map fun p => ({acc with steppedline := p.1}, p.2)
  else none

/-- Scans the members of a nonempty JSON object into a `Timpris`, up to
and including the closing brace. -/
def parseMembers : Nat → Timpris → List Nat → Option (Timpris × List Nat)
  | 0, _, _ => none
  | fuel + 1, acc, bs =>
    (parseStringLit bs).bind fun ks =>
    match ks.2 with
    | [] => none
    | b :: r =>
      if b = 58 then
        (parseMemberVal ks.1 acc r).bind fun ar =>
        match ar.2 with
        | [] => none
        | b2 :: r2 =>
          if b2 = 44 then parseMembers fuel ar.1 r2
          else if b2 = 125 then some (ar.1, r2)
          else none
      else none

/-- Scans one JSON object as a `Timpris` value. -/
def parseObjectVal (bs : List Nat) : Option (Timpris × List Nat) :=
  match bs with
  | [] => none
  | b :: r =>
    if b = 123 then
      match r with
      | [] => none
      | b2 :: r2 =>
        if b2 = 125 then some (timprisZero, r2)
        else parseMembers r.length timprisZero r
    else none

/-- Scans the items of a nonempty JSON array of series objects up to and
including the closing bracket. -/
def parseSeriesItems : Nat → List Nat → Option (List Timpris × List Nat)
  | 0, _ => none
  | fuel + 1, bs =>
    (parseObjectVal bs).bind fun tr =>
      match tr.2 with
      | [] => none
      | b :: r =>
        if b = 44 then
          (parseSeriesItems fuel r).map fun p => (tr.1 :: p.1, p.2)
        else if b = 93 then some ([tr.1], r)
        else none

/-- `json.Unmarshal` of the datasets payload into `[]Timpris` (fragment:
arrays of flat objects with the known lowercase keys, no spaces). -/
def jsonParseSeries (bs : List Nat) : Option (List Timpris) :=
  match bs with
  | [] => none
  | b :: r =>
    if b = 91 then
      match r with
      | [] => none
      | b2 :: r2 =>
        if b2 = 93 then (if r2 = [] then some [] else none)
        else
          match parseSeriesItems r.length r with
          | some (ts, rest) => if rest = [] then some ts else none
          | none => none
    else none

/-- Days from the unix epoch to the civil date `y-m-d` (proleptic
Gregorian), as Go `time` computes absolute dates. -/
def daysFromCivil (y : Int) (m : Nat) (d : Nat) : Int :=
  let y2 : Int := if m ≤ 2 then y - 1 else y
  let era : Int := Int.tdiv (if 0 ≤ y2 then y2 else y2 - 399) 400
  let yoe : Int := y2 - era * 400
  let mp : Int := ((m : Int) + 9) % 12
  let doy : Int := Int.tdiv (153 * mp + 2) 5 + (d : Int) - 1
  let doe : Int := yoe * 365 + Int.tdiv yoe 4 - Int.tdiv yoe 100 + doy
  era * 146097 + doe - 719468

/-- Civil date `(y, m, d)` of a day count from the unix epoch. -/
def civilFromDays (z0 : Int) : Int × Nat × Nat :=
  let z : Int := z0 + 719468
  let era : Int := Int.tdiv (if 0 ≤ z then z else z - 146096) 146097
  let doe : Nat := (z - era * 146097).toNat
  let yoe : Nat := (doe - doe / 1460 + doe / 36524 - doe / 146096) / 365
  let y : Int := (yoe : Int) + era * 400
  let doy : Nat := doe - (365 * yoe + yoe / 4 - yoe / 100)
  let mp : Nat := (5 * doy + 2) / 153
  let d : Nat := doy - (153 * mp + 2) / 5 + 1
  let m : Nat := if mp < 10 then mp + 3 else mp - 9
  (if m ≤ 2 then y + 1 else y, m, d)

/-- Go `time.Date(y, m, d, hour, 0, 0, 0, loc)` for a fixed-offset
location (`offset` seconds east of UTC), as unix seconds. -/
def timeDate (y : Int) (m : Nat) (d : Nat) (hour : Nat) (offset : Int) : Int :=
  daysFromCivil y m d * 86400 + (hour : Int) * 3600 - offset

/-- Two right-aligned decimal digits, zero padded. -/
def pad2 (n : Nat) : List Char := if n < 10 then '0' :: natToChars n else natToChars n

/-- Four right-aligned decimal digits, zero padded. -/
def pad4 (n : Nat) : List Char :=
  if n < 10 then '0' :: '0' :: '0' :: natToChars n
  else if n < 100 then '0' :: '0' :: natToChars n
  else if n < 1000 then '0' :: natToChars n
  else natToChars n

/-- Go UTC formatting of a unix-seconds instant with the layout
2006-01-02 15:04:05, as used for the `epoch` column. -/
def formatUTC (t : Int) : List Char :=
  let days : Int := Int.fdiv t 86400
  let sod : Nat := (t - days * 86400).toNat
  let c := civilFromDays days
  pad4 c.1.toNat ++ '-' :: pad2 c.2.1 ++ '-' :: pad2 c.2.2 ++
    ' ' :: pad2 (sod / 3600) ++ ':' :: pad2 (sod % 3600 / 60) ++ ':' :: pad2 (sod % 60)

/-- Exact rational value of a decimal literal. -/
def Dec.toRat (d : Dec) : ℚ :=
  (if d.neg then (-1 : ℚ) else 1) * ((d.ip : ℚ) + (valOf d.fp : ℚ) / (10 : ℚ) ^ d.fp.length)

/-- Truncation of a rational toward zero, the effect of the Go
conversion `int(x)` on a float64 value. -/
def ratTrunc (q : ℚ) : Int := if 0 ≤ q then ⌊q⌋ else ⌈q⌉

/-- Go `int(price * 100)` on the decimal literal `d`: multiply by 100
and truncate toward zero, computed in exact integer arithmetic. -/
def goCents (d : Dec) : Int :=
  let mag : Nat := d.ip * 100 + valOf d.fp * 100 / 10 ^ d.fp.length
  if d.neg then -(mag : Int) else (mag : Int)

/-- Configuration values the handler reads through viper: the influx
connection values and the MariaDB DSN (empty string disables the
relational sink). -/
structure Config where
  influxServer : List Char
  influxUser : List Char
  influxPasswd : List Char
  influxDB : List Char
  mariaDSN : List Char
deriving DecidableEq, Repr

/-- The reference moment of the run: the civil date of `time.Now()` and
the fixed offset (seconds east of UTC) of its location. -/
structure Now where
  year : Int
  month : Nat
  day : Nat
  offset : Int
deriving DecidableEq, Repr

/-- One point added to the influx batch: measurement `powerprices`, tags
`hour` and `area`, field `value`, hour-resolution timestamp. -/
structure InfluxPoint where
  measurement : List Char
  hourTag : List Char
  areaTag : List Char
  value : Dec
  time : Int
deriving DecidableEq, Repr

/-- One parameter tuple passed to the prepared MariaDB insert
`INSERT INTO pricesbyhour(year,month,day,hour,epoch,area,price)`. -/
structure MariaRow where
  year : Int
  month : Nat
  day : Nat
  hour : Nat
  epoch : List Char
  area : List Char
  price : Int
deriving DecidableEq, Repr

/-- A blocking sink write performed by the handler, in program order. -/
inductive Event where
  | mariaExec : MariaRow → Event
  | influxWrite : List InfluxPoint → Event
deriving DecidableEq, Repr

/-- True for a relational insert event. -/
def Event.isMaria : Event → Bool
  | .mariaExec _ => true
  | .influxWrite _ => false

/-- True for the influx batch write event. -/
def Event.isInflux : Event → Bool
  | .mariaExec _ => false
  | .influxWrite _ => true

/-- Control outcome of one `OnHTML` handler invocation. -/
inductive Outcome where
  /-- The handler ran to completion and wrote its batch. -/
  | ok : Outcome
  /-- Early `return`: the labels attribute is not valid base64. -/
  | skipLabelsBase64 : Outcome
  /-- Early `return`: the labels bytes do not decode as an int array. -/
  | skipLabelsJson : Outcome
  /-- `panic(err)`: the datasets attribute is not valid base64. -/
  | panicDatasetsBase64 : Outcome
  /-- `panic(err)`: the datasets bytes do not decode as a Timpris array. -/
  | panicDatasetsJson : Outcome
  /-- Runtime panic: `prices[0]` indexes an empty slice. -/
  | panicIndexEmpty : Outcome
deriving DecidableEq, Repr

/-- Result of one handler invocation: its control outcome, the influx
batch it accumulated, the rows handed to the relational sink (`none`
when no relational connection was opened), and the ordered trace of
blocking sink writes. -/
structure RunResult where
  outcome : Outcome
  batch : List InfluxPoint
  maria : Option (List MariaRow)
  trace : List Event
deriving DecidableEq, Repr

/-- String constant `"SE3"`, the hardcoded area tag. -/
def se3Str : List Char := ['S', 'E', '3']

/-- String constant `"powerprices"`, the influx measurement name. -/
def powerpricesStr : List Char :=
  ['p', 'o', 'w', 'e', 'r', 'p', 'r', 'i', 'c', 'e', 's']

/-- One iteration of the point loop: tags `hour` (decimal string) and
`area = "SE3"`, field `value = price`, timestamp
`time.Date(year, month, day, hour, 0, 0, 0, loc)`. -/
def buildPoint (now : Now) (hour : Nat) (price : Dec) : InfluxPoint :=
  { measurement := powerpricesStr
    hourTag := natToChars hour
    areaTag := se3Str
    value := price
    time := timeDate now.year now.month now.day hour now.offset }

/-- The argument tuple of `stmt.Exec` for one point: year, month, day,
hour, the UTC-formatted timestamp, the area, and the truncated cents. -/
def mariaRowOf (now : Now) (hour : Nat) (price : Dec) : MariaRow :=
  { year := now.year
    month := now.month
    day := now.day
    hour := hour
    epoch := formatUTC (timeDate now.year now.month now.day hour now.offset)
    area := se3Str
    price := goCents price }

/-- The influx points built by the `for hour, price := range` loop,
starting at index `i`. -/
def buildPoints (now : Now) : Nat → List Dec → List InfluxPoint
  | _, [] => []
  | i, v :: vs => buildPoint now i v :: buildPoints now (i + 1) vs

/-- The relational rows produced by the same loop, starting at `i`. -/
def buildRows (now : Now) : Nat → List Dec → List MariaRow
  | _, [] => []
  | i, v :: vs => mariaRowOf now i v :: buildRows now (i + 1) vs

/-- Decode of the labels attribute: base64, then JSON into `[]int`. -/
def decodeLabels (s : List Char) : Option (List Int) :=
  (b64decode s).bind jsonParseInts

/-- Decode of the datasets attribute: base64, then JSON into
`[]Timpris`. -/
def decodeDatasets (s : List Char) : Option (List Timpris) :=
  (b64decode s).bind jsonParseSeries

/-- The handler body after the labels have been decoded successfully.
It depends only on the datasets attribute, the configuration and the
reference moment — the decoded labels are never used again. -/
def handlerCore (cfg : Config) (now : Now) (datasetsAttr : List Char) : RunResult :=
  match b64decode datasetsAttr with
  | none => ⟨.panicDatasetsBase64, [], none, []⟩
  | some db =>
    match jsonParseSeries db with
    | none => ⟨.panicDatasetsJson, [], none, []⟩
    | some prices =>
      match prices with
      | [] =>
        ⟨.panicIndexEmpty, [], if cfg.mariaDSN.isEmpty then none else some [], []⟩
      | p :: _ =>
        let pts := buildPoints now 0 p.data
        let rows := buildRows now 0 p.data
        if cfg.mariaDSN.isEmpty then
          ⟨.ok, pts, none, [Event.influxWrite pts]⟩
        else
          ⟨.ok, pts, some rows, rows.map Event.mariaExec ++ [Event.influxWrite pts]⟩

/-- One element the collector hands to the `OnHTML("canvas", ...)`
handler: its tag name and the two data attributes. -/
structure Element where
  tag : List Char
  labelsAttr : List Char
  datasetsAttr : List Char
deriving DecidableEq, Repr

/-- The `OnHTML` handler of src/main.go: decode labels (silent `return`
on failure), decode datasets (panic on failure), then build and write
the points. -/
def handler (cfg : Config) (now : Now) (e : Element) : RunResult :=
  match b64decode e.labelsAttr with
  | none => ⟨.skipLabelsBase64, [], none, []⟩
  | some lb =>
    match jsonParseInts lb with
    | none => ⟨.skipLabelsJson, [], none, []⟩
    | some _ => handlerCore cfg now e.datasetsAttr

/-- String constant `"canvas"`, the selector of the `OnHTML` handler. -/
def canvasTag : List Char := ['c', 'a', 'n', 'v', 'a', 's']

/-- One collector visit: the handler fires once per element matching the
`canvas` selector, in document order; other elements are ignored. -/
def runPage (cfg : Config) (now : Now) (page : List Element) : List RunResult :=
  (page.filter (fun el => el.tag == canvasTag)).map (handler cfg now)

/-- Byte list of an ASCII string literal, for concrete test inputs. -/
def strBytes (s : String) : List Nat := s.toList.map Char.toNat

theorem buildPoints_length (now : Now) :
    ∀ (i : Nat) (vs : List Dec), (buildPoints now i vs).length = vs.length := by
  intro i vs
  induction vs generalizing i with
  | nil => rfl
  | cons v t ih => simp [buildPoints, ih]

theorem buildRows_length (now : Now) :
    ∀ (i : Nat) (vs : List Dec), (buildRows now i vs).length = vs.length := by
  intro i vs
  induction vs generalizing i with
  | nil => rfl
  | cons v t ih => simp [buildRows, ih]

theorem buildPoints_get? (now : Now) :
    ∀ (vs : List Dec) (i k : Nat) (v : Dec), vs.get? k = some v →
      (buildPoints now i vs).get? k = some (buildPoint now (i + k) v) := by
  intro vs
  induction vs with
  | nil => intro i k v h; simp at h
  | cons v0 t ih =>
    intro i k v h
    cases k with
    | zero =>
      simp only [List.get?_cons_zero, Option.some.injEq] at h
      subst h
      simp [buildPoints]
    | succ k =>
      simp only [List.get?_cons_succ] at h
      have := ih (i + 1) k v h
      simpa [buildPoints, Nat.add_assoc, Nat.add_comm 1 k] using this

theorem buildRows_get? (now : Now) :
    ∀ (vs : List Dec) (i k : Nat) (v : Dec), vs.get? k = some v →
      (buildRows now i vs).get? k = some (mariaRowOf now (i + k) v) := by
  intro vs
  induction vs with
  | nil => intro i k v h; simp at h
  | cons v0 t ih =>
    intro i k v h
    cases k with
    | zero =>
      simp only [List.get?_cons_zero, Option.some.injEq] at h
      subst h
      simp [buildRows]
    | succ k =>
      simp only [List.get?_cons_succ] at h
      have := ih (i + 1) k v h
      simpa [buildRows, Nat.add_assoc, Nat.add_comm 1 k] using this

theorem floor_add_div (a b c : ℕ) :
    ⌊(a : ℚ) + (b : ℚ) / (c : ℚ)⌋ = ((a + b / c : ℕ) : ℤ) := by
  rw [show ((a : ℕ) : ℚ) = (((a : ℕ) : ℤ) : ℚ) by push_cast; ring, Int.floor_int_add]
  have h3 : (0 : ℚ) ≤ (b : ℚ) / (c : ℚ) := by positivity
  rw [← Int.natCast_floor_eq_floor h3, Nat.floor_div_eq_div]
  push_cast
  ring

theorem ratTrunc_add_div (a b c : ℕ) :
    ratTrunc ((a : ℚ) + (b : ℚ) / (c : ℚ)) = ((a + b / c : ℕ) : ℤ) := by
  have hpos : (0 : ℚ) ≤ (a : ℚ) + (b : ℚ) / (c : ℚ) := by positivity
  unfold ratTrunc
  rw [if_pos hpos, floor_add_div]

theorem ratTrunc_neg_add_div (a b c : ℕ) :
    ratTrunc (-((a : ℚ) + (b : ℚ) / (c : ℚ))) = -((a + b / c : ℕ) : ℤ) := by
  have hpos : (0 : ℚ) ≤ (a : ℚ) + (b : ℚ) / (c : ℚ) := by positivity
  have hfl := floor_add_div a b c
  by_cases h0 : (a : ℚ) + (b : ℚ) / (c : ℚ) = 0
  · rw [h0, neg_zero]
    unfold ratTrunc
    rw [if_pos le_rfl]
    rw [h0] at hfl
    simp only [Int.floor_zero] at hfl ⊢
    omega
  · have hlt : (0 : ℚ) < (a : ℚ) + (b : ℚ) / (c : ℚ) := hpos.lt_of_ne (Ne.symm h0)
    unfold ratTrunc
    rw [if_neg (by linarith), Int.ceil_neg, hfl]

/-- The integer-cents computation agrees with multiplying the exact
rational value by 100 and truncating toward zero. -/
theorem goCents_eq (d : Dec) : goCents d = ratTrunc (d.toRat * 100) := by
  obtain ⟨neg, ip, fp⟩ := d
  cases neg
  · have htrF : Dec.toRat ⟨false, ip, fp⟩ * 100 =
        ((ip * 100 : ℕ) : ℚ) + ((valOf fp * 100 : ℕ) : ℚ) / ((10 ^ fp.length : ℕ) : ℚ) := by
      simp only [Dec.toRat]
      push_cast
      ring
    rw [htrF, ratTrunc_add_div]
    simp [goCents]
  · have htrT : Dec.toRat ⟨true, ip, fp⟩ * 100 =
        -(((ip * 100 : ℕ) : ℚ) + ((valOf fp * 100 : ℕ) : ℚ) / ((10 ^ fp.length : ℕ) : ℚ)) := by
      simp only [Dec.toRat]
      push_cast
      ring
    rw [htrT, ratTrunc_neg_add_div]
    simp [goCents]

/-- Sample configuration with an empty MariaDB DSN. -/
def cfgNone : Config := ⟨[], [], [], [], []⟩

/-- Sample configuration with a non-empty MariaDB DSN. -/
def cfgMaria : Config := ⟨[], [], [], [], ['x']⟩

/-- Sample reference moment: 2024-05-01 in a zone 7200 seconds east. -/
def nowSample : Now := ⟨2024, 5, 1, 7200⟩

/-- Sample decoded price series. -/
def valsSample : List Dec := [⟨false, 1, [2, 3]⟩, ⟨false, 0, [9, 8]⟩]

/-- Element with two labels but three prices in the first series. -/
def elMismatch : Element :=
  ⟨canvasTag, b64encode (strBytes "[0,1]"),
    b64encode (strBytes "[\x7b\"label\":\"SE3\",\"data\":[1.5,2.25,0.5]\x7d]")⟩

/-- Element with one label and one price. -/
def elOne : Element :=
  ⟨canvasTag, b64encode (strBytes "[0]"),
    b64encode (strBytes "[\x7b\"label\":\"SE3\",\"data\":[1.999]\x7d]")⟩

/-- Element whose datasets payload decodes to an empty series list. -/
def elEmptySeries : Element :=
  ⟨canvasTag, b64encode (strBytes "[0]"), b64encode (strBytes "[]")⟩

/-- Encoding direction of the round-trip property: base64 of the JSON
serialization of a price array. -/
def encodePricesPayload (xs : List Dec) : List Char := b64encode (jsonPrintNums xs)

/-- The payload decoder on the series-values shape: base64 decode, then
JSON decode of a float64 array (the same scanner the datasets decode
uses for each `data` member). -/
def decodePricesPayload (s : List Char) : Option (List Dec) :=
  (b64decode s).bind jsonParseNums

theorem printNat_lt256 (n : Nat) : ∀ b ∈ printNat n, b < 256 := by
  intro b hb
  obtain ⟨d, hd, rfl⟩ := List.mem_map.mp hb
  have := natDigitsBE_lt n d hd
  omega

theorem printDec_lt256 (d : Dec) (h : d.WF) : ∀ b ∈ printDec d, b < 256 := by
  intro b hb
  unfold printDec at hb
  rcases List.mem_append.mp hb with hb1 | hb2
  · rcases List.mem_append.mp hb1 with hb3 | hb4
    · cases hn : d.neg <;> rw [hn] at hb3 <;> simp at hb3
      omega
    · exact printNat_lt256 d.ip b hb4
  · unfold fracPart at hb2
    by_cases hfp : d.fp = []
    · rw [if_pos hfp] at hb2
      simp at hb2
    · rw [if_neg hfp] at hb2
      rcases List.mem_cons.mp hb2 with hb5 | hb6
      · omega
      · obtain ⟨x, hx, rfl⟩ := List.mem_map.mp hb6
        have := h x hx
        omega

theorem printItems_lt256 (xs : List Dec) (h : ∀ d ∈ xs, d.WF) :
    ∀ b ∈ printItems xs, b < 256 := by
  intro b hb
  induction xs with
  | nil => simp [printItems] at hb
  | cons d t ih =>
    cases t with
    | nil =>
      simp only [printItems] at hb
      exact printDec_lt256 d (h d (List.mem_cons_self d [])) b hb
    | cons x2 t2 =>
      simp only [printItems] at hb
      rcases List.mem_append.mp hb with hb1 | hb2
      · exact printDec_lt256 d (h d (List.mem_cons_self d _)) b hb1
      · rcases List.mem_cons.mp hb2 with hb3 | hb4
        · omega
        · exact ih (fun x hx => h x (List.mem_cons_of_mem d hx)) hb4

theorem jsonPrintNums_lt256 (xs : List Dec) (h : ∀ d ∈ xs, d.WF) :
    ∀ b ∈ jsonPrintNums xs, b < 256 := by
  intro b hb
  unfold jsonPrintNums at hb
  rcases List.mem_cons.mp hb with hb1 | hb2
  · omega
  · rcases List.mem_append.mp hb2 with hb3 | hb4
    · exact printItems_lt256 xs h b hb3
    · simp at hb4
      omega

/-- Claim C8: decoding is a left inverse of base64-of-JSON encoding on
arrays of representable price literals, bit for bit. -/
theorem claim_C8 (xs : List Dec) (hWF : ∀ d ∈ xs, d.WF) :
    decodePricesPayload (encodePricesPayload xs) = some xs := by
  unfold decodePricesPayload encodePricesPayload
  rw [b64_roundtrip _ (jsonPrintNums_lt256 xs hWF), Option.some_bind,
    jsonParseNums_print xs hWF]

theorem claim_C8_witness :
    decodePricesPayload (encodePricesPayload
      [⟨false, 1, [2, 3]⟩, ⟨true, 0, [5]⟩, ⟨false, 42, []⟩]) =
      some [⟨false, 1, [2, 3]⟩, ⟨true, 0, [5]⟩, ⟨false, 42, []⟩] :=
  claim_C8 [⟨false, 1, [2, 3]⟩, ⟨true, 0, [5]⟩, ⟨false, 42, []⟩] (by decide)

/-- Claim C2: the point loop is total and order preserving: it yields
exactly one point per series value, the point at index i carrying hour
tag i, price values[i], area SE3, and the timestamp of the reference
date at hour i in the local zone with zero minutes and seconds, with
timestamps strictly ascending in hour order. -/
theorem claim_C2 (now : Now) (vals : List Dec) :
    (buildPoints now 0 vals).length = vals.length ∧
    (∀ k v, vals.get? k = some v →
      (buildPoints now 0 vals).get? k = some
        { measurement := powerpricesStr, hourTag := natToChars k, areaTag := se3Str,
          value := v, time := timeDate now.year now.month now.day k now.offset }) ∧
    (∀ j k pj pk, j < k →
      (buildPoints now 0 vals).get? j = some pj →
      (buildPoints now 0 vals).get? k = some pk → pj.time < pk.time) := by
  refine ⟨buildPoints_length now 0 vals, ?_, ?_⟩
  · intro k v h
    have := buildPoints_get? now vals 0 k v h
    simpa [buildPoint] using this
  · intro j k pj pk hjk hj hk
    have hjlen : j < vals.length := by
      by_contra hge
      rw [List.get?_eq_none.mpr (by rw [buildPoints_length]; omega)] at hj
      exact Option.noConfusion hj
    have hklen : k < vals.length := by
      by_contra hge
      rw [List.get?_eq_none.mpr (by rw [buildPoints_length]; omega)] at hk
      exact Option.noConfusion hk
    have hvj : vals.get? j = some (vals.get ⟨j, hjlen⟩) := List.get?_eq_get hjlen
    have hvk : vals.get? k = some (vals.get ⟨k, hklen⟩) := List.get?_eq_get hklen
    have hpj := buildPoints_get? now vals 0 j _ hvj
    have hpk := buildPoints_get? now vals 0 k _ hvk
    have epj : pj = buildPoint now (0 + j) (vals.get ⟨j, hjlen⟩) :=
      Option.some.inj (hj.symm.trans hpj)
    have epk : pk = buildPoint now (0 + k) (vals.get ⟨k, hklen⟩) :=
      Option.some.inj (hk.symm.trans hpk)
    subst epj epk
    simp only [buildPoint, timeDate, Nat.zero_add]
    omega

theorem claim_C2_witness :
    (buildPoints nowSample 0 valsSample).length = valsSample.length ∧
    (buildPoints nowSample 0 valsSample).get? 1 = some
      { measurement := powerpricesStr, hourTag := natToChars 1, areaTag := se3Str,
        value := ⟨false, 0, [9, 8]⟩,
        time := timeDate nowSample.year nowSample.month nowSample.day 1 nowSample.offset } ∧
    (buildPoint nowSample 0 ⟨false, 1, [2, 3]⟩).time <
      (buildPoint nowSample 1 ⟨false, 0, [9, 8]⟩).time := by
  refine ⟨(claim_C2 nowSample valsSample).1, ?_, ?_⟩
  · exact (claim_C2 nowSample valsSample).2.1 1 ⟨false, 0, [9, 8]⟩ (by decide)
  · exact (claim_C2 nowSample valsSample).2.2 0 1 _ _ (by decide) (by decide) (by decide)

/-- Claim C3: every relational price column is the price multiplied by
100 and truncated toward zero by the integer conversion, not rounded:
price 1.23 stores 123 and price 1.999 stores 199. -/
theorem claim_C3 (now : Now) (vals : List Dec) :
    (∀ k v, vals.get? k = some v →
      (buildRows now 0 vals).get? k = some (mariaRowOf now k v) ∧
      (mariaRowOf now k v).price = ratTrunc (v.toRat * 100)) ∧
    ratTrunc (Dec.toRat ⟨false, 1, [2, 3]⟩ * 100) = 123 ∧
    ratTrunc (Dec.toRat ⟨false, 1, [9, 9, 9]⟩ * 100) = 199 := by
  refine ⟨?_, ?_, ?_⟩
  · intro k v h
    have hrow := buildRows_get? now vals 0 k v h
    rw [Nat.zero_add] at hrow
    exact ⟨hrow, (goCents_eq v).symm ▸ rfl⟩
  · rw [← goCents_eq]
    decide
  · rw [← goCents_eq]
    decide

theorem claim_C3_witness :
    (buildRows nowSample 0 [⟨false, 1, [9, 9, 9]⟩]).get? 0 =
      some (mariaRowOf nowSample 0 ⟨false, 1, [9, 9, 9]⟩) ∧
    (mariaRowOf nowSample 0 ⟨false, 1, [9, 9, 9]⟩).price =
      ratTrunc (Dec.toRat ⟨false, 1, [9, 9, 9]⟩ * 100) ∧
    (mariaRowOf nowSample 0 ⟨false, 1, [9, 9, 9]⟩).price = 199 := by
  obtain ⟨h1, h2⟩ :=
    (claim_C3 nowSample [⟨false, 1, [9, 9, 9]⟩]).1 0 ⟨false, 1, [9, 9, 9]⟩ (by decide)
  exact ⟨h1, h2, by decide⟩

theorem isEmpty_false_of_ne {α : Type} {l : List α} (h : l ≠ []) :
    l.isEmpty = false := by
  cases l with
  | nil => exact absurd rfl h
  | cons a t => rfl

theorem handler_labels_b64_none (cfg : Config) (now : Now) (e : Element)
    (h1 : b64decode e.labelsAttr = none) :
    handler cfg now e = ⟨.skipLabelsBase64, [], none, []⟩ := by
  unfold handler
  rw [h1]

theorem handler_labels_json_none (cfg : Config) (now : Now) (e : Element)
    (lb : List Nat) (h1 : b64decode e.labelsAttr = some lb)
    (h2 : jsonParseInts lb = none) :
    handler cfg now e = ⟨.skipLabelsJson, [], none, []⟩ := by
  unfold handler
  rw [h1]
  simp only []
  rw [h2]

theorem handler_after_labels (cfg : Config) (now : Now) (e : Element)
    (lb : List Nat) (labels : List Int) (h1 : b64decode e.labelsAttr = some lb)
    (h2 : jsonParseInts lb = some labels) :
    handler cfg now e = handlerCore cfg now e.datasetsAttr := by
  unfold handler
  rw [h1]
  simp only []
  rw [h2]

theorem handlerCore_b64_none (cfg : Config) (now : Now) (dAttr : List Char)
    (h3 : b64decode dAttr = none) :
    handlerCore cfg now dAttr = ⟨.panicDatasetsBase64, [], none, []⟩ := by
  unfold handlerCore
  rw [h3]

theorem handlerCore_json_none (cfg : Config) (now : Now) (dAttr : List Char)
    (db : List Nat) (h3 : b64decode dAttr = some db)
    (h4 : jsonParseSeries db = none) :
    handlerCore cfg now dAttr = ⟨.panicDatasetsJson, [], none, []⟩ := by
  unfold handlerCore
  rw [h3]
  simp only []
  rw [h4]

theorem handlerCore_empty (cfg : Config) (now : Now) (dAttr : List Char)
    (db : List Nat) (h3 : b64decode dAttr = some db)
    (h4 : jsonParseSeries db = some []) :
    handlerCore cfg now dAttr =
      ⟨.panicIndexEmpty, [], if cfg.mariaDSN.isEmpty then none else some [], []⟩ := by
  unfold handlerCore
  rw [h3]
  simp only []
  rw [h4]

theorem handlerCore_ok (cfg : Config) (now : Now) (dAttr : List Char)
    (db : List Nat) (p : Timpris) (ps : List Timpris)
    (h3 : b64decode dAttr = some db)
    (h4 : jsonParseSeries db = some (p :: ps)) :
    handlerCore cfg now dAttr =
      (if cfg.mariaDSN.isEmpty then
        ⟨.ok, buildPoints now 0 p.data, none,
          [Event.influxWrite (buildPoints now 0 p.data)]⟩
      else
        ⟨.ok, buildPoints now 0 p.data, some (buildRows now 0 p.data),
          (buildRows now 0 p.data).map Event.mariaExec ++
            [Event.influxWrite (buildPoints now 0 p.data)]⟩) := by
  unfold handlerCore
  rw [h3]
  simp only []
  rw [h4]

/-- Claim C6: a malformed labels or datasets payload (bad base64 or bad
structure) abandons the run with the abort outcome naming the failing
payload, and zero points reach any sink: empty batch, no relational
rows, empty write trace. -/
theorem claim_C6 (cfg : Config) (now : Now) (e : Element) :
    (b64decode e.labelsAttr = none →
      handler cfg now e = ⟨.skipLabelsBase64, [], none, []⟩) ∧
    (∀ lb, b64decode e.labelsAttr = some lb → jsonParseInts lb = none →
      handler cfg now e = ⟨.skipLabelsJson, [], none, []⟩) ∧
    (∀ lb labels, b64decode e.labelsAttr = some lb →
      jsonParseInts lb = some labels → b64decode e.datasetsAttr = none →
      handler cfg now e = ⟨.panicDatasetsBase64, [], none, []⟩) ∧
    (∀ lb labels db, b64decode e.labelsAttr = some lb →
      jsonParseInts lb = some labels → b64decode e.datasetsAttr = some db →
      jsonParseSeries db = none →
      handler cfg now e = ⟨.panicDatasetsJson, [], none, []⟩) := by
  refine ⟨?_, ?_, ?_, ?_⟩
  · intro h1
    exact handler_labels_b64_none cfg now e h1
  · intro lb h1 h2
    exact handler_labels_json_none cfg now e lb h1 h2
  · intro lb labels h1 h2 h3
    rw [handler_after_labels cfg now e lb labels h1 h2]
    exact handlerCore_b64_none cfg now e.datasetsAttr h3
  · intro lb labels db h1 h2 h3 h4
    rw [handler_after_labels cfg now e lb labels h1 h2]
    exact handlerCore_json_none cfg now e.datasetsAttr db h3 h4

theorem claim_C6_witness :
    handler cfgNone nowSample ⟨canvasTag, ['!'], []⟩ =
      ⟨.skipLabelsBase64, [], none, []⟩ ∧
    handler cfgNone nowSample ⟨canvasTag, b64encode (strBytes "x"), []⟩ =
      ⟨.skipLabelsJson, [], none, []⟩ ∧
    handler cfgNone nowSample ⟨canvasTag, b64encode (strBytes "[0]"), ['!']⟩ =
      ⟨.panicDatasetsBase64, [], none, []⟩ ∧
    handler cfgNone nowSample
        ⟨canvasTag, b64encode (strBytes "[0]"), b64encode (strBytes "x")⟩ =
      ⟨.panicDatasetsJson, [], none, []⟩ := by
  refine ⟨?_, ?_, ?_, ?_⟩
  · exact (claim_C6 cfgNone nowSample ⟨canvasTag, ['!'], []⟩).1 (by decide)
  · exact (claim_C6 cfgNone nowSample ⟨canvasTag, b64encode (strBytes "x"), []⟩).2.1
      (strBytes "x") (by decide) (by decide)
  · exact (claim_C6 cfgNone nowSample
      ⟨canvasTag, b64encode (strBytes "[0]"), ['!']⟩).2.2.1
      (strBytes "[0]") [0] (by decide) (by decide) (by decide)
  · exact (claim_C6 cfgNone nowSample
      ⟨canvasTag, b64encode (strBytes "[0]"), b64encode (strBytes "x")⟩).2.2.2
      (strBytes "[0]") [0] (strBytes "x") (by decide) (by decide) (by decide) (by decide)

/-- Claim C9: a datasets payload decoding to an empty series array makes
the program index the first element of an empty slice: the run panics
with the index failure rather than any structured decode error, and no
write happens. -/
theorem claim_C9 (cfg : Config) (now : Now) (e : Element)
    (lb : List Nat) (labels : List Int) (db : List Nat)
    (h1 : b64decode e.labelsAttr = some lb) (h2 : jsonParseInts lb = some labels)
    (h3 : b64decode e.datasetsAttr = some db) (h4 : jsonParseSeries db = some []) :
    (handler cfg now e).outcome = .panicIndexEmpty ∧
    (handler cfg now e).outcome ≠ .skipLabelsBase64 ∧
    (handler cfg now e).outcome ≠ .skipLabelsJson ∧
    (handler cfg now e).outcome ≠ .panicDatasetsBase64 ∧
    (handler cfg now e).outcome ≠ .panicDatasetsJson ∧
    (handler cfg now e).trace = [] ∧ (handler cfg now e).batch = [] := by
  rw [handler_after_labels cfg now e lb labels h1 h2,
    handlerCore_empty cfg now e.datasetsAttr db h3 h4]
  refine ⟨rfl, ?_, ?_, ?_, ?_, rfl, rfl⟩ <;> exact fun hcon => Outcome.noConfusion hcon

theorem claim_C9_witness :
    (handler cfgNone nowSample elEmptySeries).outcome = .panicIndexEmpty ∧
    (handler cfgNone nowSample elEmptySeries).trace = [] ∧
    (handler cfgNone nowSample elEmptySeries).batch = [] := by
  have h := claim_C9 cfgNone nowSample elEmptySeries (strBytes "[0]") [0] (strBytes "[]")
    (by decide) (by decide) (by decide) (by decide)
  exact ⟨h.1, h.2.2.2.2.2⟩

/-- Claim C10: the decoded label values never influence the persisted
data: two runs whose labels payloads both decode successfully and whose
datasets payloads coincide produce identical results, because the
decoded labels are dead after the decode. -/
theorem claim_C10 (cfg : Config) (now : Now) (e1 e2 : Element)
    (h1 : (decodeLabels e1.labelsAttr).isSome = true)
    (h2 : (decodeLabels e2.labelsAttr).isSome = true)
    (hd : e1.datasetsAttr = e2.datasetsAttr) :
    handler cfg now e1 = handler cfg now e2 := by
  unfold decodeLabels at h1 h2
  cases hb1 : b64decode e1.labelsAttr with
  | none => rw [hb1] at h1; simp at h1
  | some lb1 =>
    rw [hb1] at h1
    cases hj1 : jsonParseInts lb1 with
    | none => rw [Option.some_bind, hj1] at h1; simp at h1
    | some labels1 =>
      cases hb2 : b64decode e2.labelsAttr with
      | none => rw [hb2] at h2; simp at h2
      | some lb2 =>
        rw [hb2] at h2
        cases hj2 : jsonParseInts lb2 with
        | none => rw [Option.some_bind, hj2] at h2; simp at h2
        | some labels2 =>
          rw [handler_after_labels cfg now e1 lb1 labels1 hb1 hj1,
            handler_after_labels cfg now e2 lb2 labels2 hb2 hj2, hd]

theorem claim_C10_witness :
    handler cfgMaria nowSample
      ⟨canvasTag, b64encode (strBytes "[0]"), elOne.datasetsAttr⟩ =
    handler cfgMaria nowSample
      ⟨canvasTag, b64encode (strBytes "[7,8,9]"), elOne.datasetsAttr⟩ :=
  claim_C10 cfgMaria nowSample _ _ (by decide) (by decide) rfl

/-- Claim C1 (amended): the handler performs no label/series length
validation at all: whenever both payloads decode and the series list is
nonempty, the run completes and writes one point per value of the first
series, for every decoded label array whatever its length. -/
theorem claim_C1_amended (cfg : Config) (now : Now) (e : Element)
    (lb : List Nat) (labels : List Int) (db : List Nat)
    (p : Timpris) (ps : List Timpris)
    (h1 : b64decode e.labelsAttr = some lb) (h2 : jsonParseInts lb = some labels)
    (h3 : b64decode e.datasetsAttr = some db)
    (h4 : jsonParseSeries db = some (p :: ps)) :
    (handler cfg now e).outcome = .ok ∧
    (handler cfg now e).batch.length = p.data.length := by
  rw [handler_after_labels cfg now e lb labels h1 h2,
    handlerCore_ok cfg now e.datasetsAttr db p ps h3 h4]
  by_cases hdsn : cfg.mariaDSN.isEmpty
  · rw [if_pos hdsn]
    exact ⟨rfl, buildPoints_length now 0 p.data⟩
  · rw [if_neg hdsn]
    exact ⟨rfl, buildPoints_length now 0 p.data⟩

/-- Counterexample to claim C1 as stated: with two decoded labels and a
three-value first series the run does not fail with a shape mismatch; it
completes and writes all three points. -/
theorem claim_C1_counterexample :
    decodeLabels elMismatch.labelsAttr = some [0, 1] ∧
    (decodeDatasets elMismatch.datasetsAttr).map
      (fun prices => (prices.headD timprisZero).data.length) = some 3 ∧
    (handler cfgNone nowSample elMismatch).outcome = .ok ∧
    (handler cfgNone nowSample elMismatch).batch.length = 3 ∧
    (handler cfgNone nowSample elMismatch).trace ≠ [] := by
  decide

theorem claim_C1_witness :
    (handler cfgNone nowSample elMismatch).outcome = .ok ∧
    (handler cfgNone nowSample elMismatch).batch.length =
      (⟨strBytes "SE3", [⟨false, 1, [5]⟩, ⟨false, 2, [2, 5]⟩, ⟨false, 0, [5]⟩],
        0, false, [], false⟩ : Timpris).data.length :=
  claim_C1_amended cfgNone nowSample elMismatch
    (strBytes "[0,1]") [0, 1]
    (strBytes "[\x7b\"label\":\"SE3\",\"data\":[1.5,2.25,0.5]\x7d]")
    ⟨strBytes "SE3", [⟨false, 1, [5]⟩, ⟨false, 2, [2, 5]⟩, ⟨false, 0, [5]⟩],
      0, false, [], false⟩ []
    (by decide) (by decide) (by decide) (by decide)

/-- Claim C4: the relational sink is used exactly when the DSN is
non-empty.  With an empty DSN no relational rows exist, no relational
write event appears, and the relational outcome is absent; with a
non-empty DSN one insert per point is executed carrying year, month,
day, hour, the UTC-formatted epoch, the area and the integer cents. -/
theorem claim_C4 (cfg : Config) (now : Now) (e : Element) :
    (cfg.mariaDSN = [] →
      (handler cfg now e).maria = none ∧
      ∀ ev ∈ (handler cfg now e).trace, ev.isMaria = false) ∧
    (cfg.mariaDSN ≠ [] →
      ∀ lb labels db p ps,
        b64decode e.labelsAttr = some lb → jsonParseInts lb = some labels →
        b64decode e.datasetsAttr = some db → jsonParseSeries db = some (p :: ps) →
        (handler cfg now e).maria = some (buildRows now 0 p.data) ∧
        (buildRows now 0 p.data).length = (handler cfg now e).batch.length ∧
        (∀ k v, p.data.get? k = some v →
          (buildRows now 0 p.data).get? k = some
            { year := now.year, month := now.month, day := now.day, hour := k,
              epoch := formatUTC (timeDate now.year now.month now.day k now.offset),
              area := se3Str, price := goCents v })) := by
  constructor
  · intro hdsn
    have hemp : cfg.mariaDSN.isEmpty = true := by rw [hdsn]; rfl
    cases hb1 : b64decode e.labelsAttr with
    | none =>
      rw [handler_labels_b64_none cfg now e hb1]
      exact ⟨rfl, by intro ev hev; simp at hev⟩
    | some lb =>
      cases hj1 : jsonParseInts lb with
      | none =>
        rw [handler_labels_json_none cfg now e lb hb1 hj1]
        exact ⟨rfl, by intro ev hev; simp at hev⟩
      | some labels =>
        rw [handler_after_labels cfg now e lb labels hb1 hj1]
        cases hb2 : b64decode e.datasetsAttr with
        | none =>
          rw [handlerCore_b64_none cfg now e.datasetsAttr hb2]
          exact ⟨rfl, by intro ev hev; simp at hev⟩
        | some db =>
          cases hj2 : jsonParseSeries db with
          | none =>
            rw [handlerCore_json_none cfg now e.datasetsAttr db hb2 hj2]
            exact ⟨rfl, by intro ev hev; simp at hev⟩
          | some prices =>
            cases prices with
            | nil =>
              rw [handlerCore_empty cfg now e.datasetsAttr db hb2 hj2]
              rw [hemp]
              exact ⟨rfl, by intro ev hev; simp at hev⟩
            | cons p ps =>
              rw [handlerCore_ok cfg now e.datasetsAttr db p ps hb2 hj2, if_pos hemp]
              refine ⟨rfl, ?_⟩
              intro ev hev
              simp only [List.mem_singleton] at hev
              subst hev
              rfl
  · intro hdsn lb labels db p ps h1 h2 h3 h4
    have hemp : cfg.mariaDSN.isEmpty = false := isEmpty_false_of_ne hdsn
    rw [handler_after_labels cfg now e lb labels h1 h2,
      handlerCore_ok cfg now e.datasetsAttr db p ps h3 h4,
      if_neg (by simp [hemp] : ¬ cfg.mariaDSN.isEmpty = true)]
    refine ⟨rfl, ?_, ?_⟩
    · rw [buildRows_length, buildPoints_length]
    · intro k v hkv
      have := buildRows_get? now p.data 0 k v hkv
      rw [Nat.zero_add] at this
      rw [this]
      rfl

theorem claim_C4_witness :
    (handler cfgNone nowSample elOne).maria = none ∧
    (handler cfgMaria nowSample elOne).maria =
      some (buildRows nowSample 0 [⟨false, 1, [9, 9, 9]⟩]) ∧
    (buildRows nowSample 0 [⟨false, 1, [9, 9, 9]⟩]).get? 0 = some
      { year := nowSample.year, month := nowSample.month, day := nowSample.day, hour := 0,
        epoch := formatUTC (timeDate nowSample.year nowSample.month nowSample.day 0
          nowSample.offset),
        area := se3Str, price := goCents ⟨false, 1, [9, 9, 9]⟩ } := by
  refine ⟨((claim_C4 cfgNone nowSample elOne).1 (by decide)).1, ?_⟩
  have h := (claim_C4 cfgMaria nowSample elOne).2 (by decide)
    (strBytes "[0]") [0] (strBytes "[\x7b\"label\":\"SE3\",\"data\":[1.999]\x7d]")
    ⟨strBytes "SE3", [⟨false, 1, [9, 9, 9]⟩], 0, false, [], false⟩ []
    (by decide) (by decide) (by decide) (by decide)
  exact ⟨h.1, h.2.2 0 ⟨false, 1, [9, 9, 9]⟩ (by decide)⟩

/-- Counterexample to claim C5 as stated: in a concrete both-sink run
the trace is a relational insert followed by the time-series batch
write, so the time-series write is not performed first. -/
theorem claim_C5_counterexample :
    (handler cfgMaria nowSample elOne).trace.map Event.isMaria = [true, false] ∧
    (handler cfgMaria nowSample elOne).trace.map Event.isInflux = [false, true] := by
  decide

/-- Claim C5 (amended): in every run that writes to both sinks the
writes are sequential, with the relational inserts executed first, one
per point inside the loop, and the single time-series batch write
performed last, after all of them. -/
theorem claim_C5_amended (cfg : Config) (now : Now) (e : Element)
    (lb : List Nat) (labels : List Int) (db : List Nat)
    (p : Timpris) (ps : List Timpris)
    (hdsn : cfg.mariaDSN ≠ [])
    (h1 : b64decode e.labelsAttr = some lb) (h2 : jsonParseInts lb = some labels)
    (h3 : b64decode e.datasetsAttr = some db)
    (h4 : jsonParseSeries db = some (p :: ps)) :
    (handler cfg now e).trace =
      (buildRows now 0 p.data).map Event.mariaExec ++
        [Event.influxWrite (buildPoints now 0 p.data)] := by
  have hemp : cfg.mariaDSN.isEmpty = false := isEmpty_false_of_ne hdsn
  rw [handler_after_labels cfg now e lb labels h1 h2,
    handlerCore_ok cfg now e.datasetsAttr db p ps h3 h4,
    if_neg (by simp [hemp] : ¬ cfg.mariaDSN.isEmpty = true)]

theorem claim_C5_witness :
    (handler cfgMaria nowSample elOne).trace =
      (buildRows nowSample 0 [⟨false, 1, [9, 9, 9]⟩]).map Event.mariaExec ++
        [Event.influxWrite (buildPoints nowSample 0 [⟨false, 1, [9, 9, 9]⟩])] :=
  claim_C5_amended cfgMaria nowSample elOne
    (strBytes "[0]") [0] (strBytes "[\x7b\"label\":\"SE3\",\"data\":[1.999]\x7d]")
    ⟨strBytes "SE3", [⟨false, 1, [9, 9, 9]⟩], 0, false, [], false⟩ []
    (by decide) (by decide) (by decide) (by decide) (by decide)

/-- Element that does not match the canvas selector. -/
def divElement : Element := ⟨['d', 'i', 'v'], [], []⟩

/-- Counterexample to claim C7 as stated: a page without a canvas
element yields no handler invocation and no error value at all, and a
page with two canvas elements fires the handler twice. -/
theorem claim_C7_counterexample :
    runPage cfgNone nowSample [divElement] = [] ∧
    (runPage cfgNone nowSample [elEmptySeries, elEmptySeries]).length = 2 := by
  decide

/-- Claim C7 (amended): there is no chart-not-found error: a fetched
page without a canvas element produces no handler invocation at all
(silence, no error value, no writes), and the handler fires once per
canvas element present rather than locating exactly one. -/
theorem claim_C7_amended (cfg : Config) (now : Now) (page : List Element) :
    (runPage cfg now page).length =
      (page.filter (fun el => el.tag == canvasTag)).length ∧
    (page.filter (fun el => el.tag == canvasTag) = [] →
      runPage cfg now page = []) := by
  constructor
  · unfold runPage
    exact List.length_map _ _
  · intro h
    unfold runPage
    rw [h]
    rfl

theorem claim_C7_witness :
    (runPage cfgNone nowSample [divElement, elEmptySeries, divElement]).length =
      ([divElement, elEmptySeries, divElement].filter
        (fun el => el.tag == canvasTag)).length ∧
    runPage cfgNone nowSample [divElement, divElement] = [] := by
  refine ⟨(claim_C7_amended cfgNone nowSample _).1, ?_⟩
  exact (claim_C7_amended cfgNone nowSample [divElement, divElement]).2 (by decide)
